import Mathlib

/-!
Verification of the request-lifecycle coordinator of the `callapi` HTTP
client (deduplication, retries, cancellation, hook pipeline), as described
by its design specification and the documentation files shipped in the
repository.  The implementation subsystem itself is not present in the
source tree (only documentation is), so the executable definitions below
are shallow embeddings modelled from the specification's own contracts,
with doc comments recording exactly which contract each definition embeds.
-/

namespace CallApi

/-! ## Error taxonomy and the uniform Result -/

/-- Modelled from the spec: the outcome-classification taxonomy of §7
(the error-classification code is not in the source tree).  One tag per
taxonomy entry: NetworkError, TimeoutError, AbortError, HTTPError (with
its status), ValidationError, SerializationError, HookError. -/
inductive ErrClass where
  | network
  | timeout
  | abort
  | http (status : Nat)
  | validation
  | serialization
  | hookStage
  deriving DecidableEq, Repr

/-- Modelled from the spec: the `name` tag of the discriminated error
union of §9 (shared base shape `name`, `message`, `errorData`). -/
def errorName : ErrClass → String
  | .network => "NetworkError"
  | .timeout => "TimeoutError"
  | .abort => "AbortError"
  | .http _ => "HTTPError"
  | .validation => "ValidationError"
  | .serialization => "SerializationError"
  | .hookStage => "HookError"

/-- Modelled from the spec: the error value delivered in a Result's error
slot — shared base shape with a `name` discriminant (§9). -/
structure CallError where
  name : String
  message : String
  deriving DecidableEq, Repr

/-- Modelled from the spec: the terminal uniform Result value of §3 —
`data`, `error` and `response` slots (payloads abstracted as `Nat`). -/
structure CallResult where
  data : Option Nat
  error : Option CallError
  response : Option Nat
  deriving DecidableEq, Repr

/-- Modelled from the spec: a classified transport outcome — either a
success carrying parsed data and the raw response, or a failure carrying
its classification and the response when one was obtained (§4.6, §7). -/
inductive Outcome where
  | success (v : Nat) (resp : Nat)
  | failure (c : ErrClass) (resp : Option Nat)
  deriving DecidableEq, Repr

/-- Modelled from the spec: normalization of a terminal outcome into the
uniform Result (§3, §7): success fills `data` and leaves `error` null;
failure fills `error` with the classified tag and leaves `data` null. -/
def buildResult : Outcome → CallResult
  | .success v resp => { data := some v, error := none, response := some resp }
  | .failure c resp =>
      { data := none
        error := some { name := errorName c, message := errorName c }
        response := resp }

/-! ## Error-object normalization as documented in the repository

The documentation files (`v0/features.mdx`, `v1/error-handling.mdx`) are
the only part of this subsystem present in the source tree.  They state
that the returned error object's `name` is `'HTTPError'` for HTTP errors
and the underlying JavaScript error's own name (e.g. `'TypeError'`,
`'SyntaxError'`) otherwise. -/

/-- A raw failure as described by the repository documentation: an HTTP
error (response with non-success status, parsed error body) or a
JavaScript error carrying its own name. -/
inductive RawFailure where
  | httpError (status : Nat) (message : String)
  | jsError (jsName : String) (message : String)
  deriving DecidableEq, Repr

/-- Normalization of a raw failure into the documented error object:
`name` is `"HTTPError"` for HTTP errors and the JavaScript error's own
name otherwise (error-handling.mdx, features.mdx). -/
def normalizeError : RawFailure → CallError
  | .httpError _ m => { name := "HTTPError", message := m }
  | .jsError n m => { name := n, message := m }

/-- The seven-member taxonomy named by the specification (§7). -/
def taxonomyNames : List String :=
  ["NetworkError", "TimeoutError", "AbortError", "HTTPError",
   "ValidationError", "SerializationError", "HookError"]

/-! ## Authorization header generation as documented in the repository -/

/-- The `auth` option as documented in `v0/features.mdx`: a bare string,
or an object selecting the `bearer` or the `token` form. -/
inductive AuthOption where
  | str (s : String)
  | bearer (s : String)
  | token (s : String)
  deriving DecidableEq, Repr

/-- Authorization header generated from the `auth` option, per
`v0/features.mdx`: a bare string and `bearer` yield a Bearer header, and
`token` yields a Token header. -/
def authHeader : AuthOption → String × String
  | .str s => ("Authorization", "Bearer " ++ s)
  | .bearer s => ("Authorization", "Bearer " ++ s)
  | .token s => ("Authorization", "Token " ++ s)

/-! ## In-Flight Registry and client state -/

/-- Modelled from the spec: the dedupe strategies of §4.2 / §6
(`cancel | defer | none`, default `cancel`); the registry code is not in
the source tree. -/
inductive DedupeStrategy where
  | cancel
  | defer
  | nodedupe
  deriving DecidableEq, Repr

/-- Modelled from the spec: the In-Flight Entry of §3 — key, a waiter
reference count, the chosen strategy of the creating call, and a
single-assignment settlement flag (§5); `id` is the entry's validity
token (§4.4), identifying the abort handle composed for that call. -/
structure InFlightEntry where
  key : String
  id : Nat
  waiters : Nat
  strategy : DedupeStrategy
  settled : Bool
  deriving DecidableEq, Repr

/-- Modelled from the spec: the In-Flight Registry of §4.2 — a per-client
mapping from deduplication key to the in-flight entry for that key. -/
structure Registry where
  entries : List InFlightEntry
  deriving DecidableEq, Repr

/-- Look up the in-flight entry for a key. -/
def Registry.findEntry (r : Registry) (k : String) : Option InFlightEntry :=
  r.entries.find? (fun e => e.key == k)

/-- Number of in-flight entries held for a key. -/
def Registry.countFor (r : Registry) (k : String) : Nat :=
  (r.entries.filter (fun e => e.key == k)).length

/-- Remove the entry for a key. -/
def Registry.remove (r : Registry) (k : String) : Registry :=
  { entries := r.entries.filter (fun e => !(e.key == k)) }

/-- Modelled from the spec: the mutable state of one client instance —
its registry (the only shared mutable resource, §5), a fresh-id counter
for validity tokens, the set of abort handles already fired, and the
number of transport invocations so far (observable for §8). -/
structure ClientState where
  reg : Registry
  nextId : Nat
  abortedIds : List Nat
  transportCount : Nat
  deriving DecidableEq, Repr

/-- The initial state of a freshly constructed client instance. -/
def ClientState.init : ClientState :=
  { reg := { entries := [] }, nextId := 0, abortedIds := [], transportCount := 0 }

/-- Result of a registry `acquire`: whether the caller starts a new
transport call, the id (validity token) of the entry the caller is
attached to, the ids of superseded entries whose waiters receive an
abort result, and the updated client state. -/
structure AcquireOut where
  isNew : Bool
  entryId : Nat
  abortedPrev : List Nat
  state : ClientState
  deriving DecidableEq, Repr

/-- Modelled from the spec: `acquire(key, strategy)` of §4.2.  No entry:
create one, `isNew = true`.  Existing entry with strategy `cancel`:
abort the existing entry's composed signal, remove it, create a fresh
entry, `isNew = true`.  Existing entry with strategy `defer`: increment
the waiter count, `isNew = false`.  Strategy `none`: bypass the registry
entirely — no entry is created, looked up, or stored. -/
def acquire (s : ClientState) (k : String) (strat : DedupeStrategy) : AcquireOut :=
  match strat with
  | .nodedupe =>
      { isNew := true, entryId := s.nextId, abortedPrev := []
        state := { s with nextId := s.nextId + 1 } }
  | _ =>
      match s.reg.findEntry k with
      | none =>
          let e : InFlightEntry :=
            { key := k, id := s.nextId, waiters := 1, strategy := strat, settled := false }
          { isNew := true, entryId := s.nextId, abortedPrev := []
            state := { s with reg := { entries := e :: s.reg.entries }, nextId := s.nextId + 1 } }
      | some old =>
          match strat with
          | .cancel =>
              let e : InFlightEntry :=
                { key := k, id := s.nextId, waiters := 1, strategy := strat, settled := false }
              { isNew := true, entryId := s.nextId, abortedPrev := [old.id]
                state :=
                  { s with
                    reg := { entries := e :: (s.reg.remove k).entries }
                    nextId := s.nextId + 1
                    abortedIds := old.id :: s.abortedIds } }
          | _ =>
              { isNew := false, entryId := old.id, abortedPrev := []
                state :=
                  { s with
                    reg :=
                      { entries :=
                          s.reg.entries.map (fun e =>
                            if e.key == k then { e with waiters := e.waiters + 1 } else e) } } }

/-- Modelled from the spec: marking the call's settlement on its entry
(single-assignment settlement flag, §5); guarded by the entry's validity
token so a superseded call cannot touch the entry that replaced it
(§4.4). -/
def settleEntry (s : ClientState) (k : String) (tok : Nat) : ClientState :=
  { s with
    reg :=
      { entries :=
          s.reg.entries.map (fun e =>
            if e.key == k && e.id == tok then { e with settled := true } else e) } }

/-- Modelled from the spec: `release(key)` of §4.2 — decrement the waiter
count; when it reaches zero and the call has settled, remove the entry.
Guarded by the caller's validity token (§4.4) so a superseded call's
release is a no-op on the entry that replaced it. -/
def release (s : ClientState) (k : String) (tok : Nat) : ClientState :=
  match s.reg.findEntry k with
  | none => s
  | some e =>
      if e.id == tok then
        if e.waiters ≤ 1 && e.settled then
          { s with reg := s.reg.remove k }
        else
          { s with
            reg :=
              { entries :=
                  s.reg.entries.map (fun e2 =>
                    if e2.key == k then { e2 with waiters := e2.waiters - 1 } else e2) } }
      else s

/-- Modelled from the spec: `cancel(key)` of §4.2 — the manual-abort
entry point: fire the entry's composed abort handle (the registry record
itself is cleaned up by the settlement path). -/
def cancelKey (s : ClientState) (k : String) : ClientState :=
  match s.reg.findEntry k with
  | none => s
  | some e => { s with abortedIds := e.id :: s.abortedIds }

/-! ## Two concurrent calls on one key: the §8 scenarios -/

/-- One transport invocation begins (observable count, §8). -/
def beginTransport (s : ClientState) : ClientState :=
  { s with transportCount := s.transportCount + 1 }

/-- Observable log of the two-call scenario: both Results, the registry
states at the instants while a call is in flight, and the total number
of transport invocations. -/
structure TwoCallLog where
  resultA : CallResult
  resultB : CallResult
  duringStates : List Registry
  transportCount : Nat
  deriving DecidableEq, Repr

/-- Modelled from the spec: the lifecycle coordinator (§4.6) run on the
§8 two-call interleaving — call A is issued, then call B on the same key
before A settles.  Each call acquires the registry; a new call begins a
transport attempt; a deferred call awaits the shared settlement without
one.  When A's transport settles, a supersession abort (its composed
signal fired by a later cancel-strategy acquire) overrides any transport
outcome, so a superseded call never surfaces a partial success (§5, §7);
settlement and release are guarded by the entry's validity token
(§4.4). -/
def runTwoCalls (strat : DedupeStrategy) (k : String) (oA oB : Outcome) : TwoCallLog :=
  let s0 := ClientState.init
  let aA := acquire s0 k strat
  let s1 := beginTransport aA.state
  let aB := acquire s1 k strat
  let s2 := if aB.isNew then beginTransport aB.state else aB.state
  let outA :=
    if s2.abortedIds.contains aA.entryId then Outcome.failure .abort none else oA
  let resultA := buildResult outA
  let s3 := release (settleEntry s2 k aA.entryId) k aA.entryId
  let resultB := if aB.isNew then buildResult oB else resultA
  let s4 := release (settleEntry s3 k aB.entryId) k aB.entryId
  { resultA := resultA, resultB := resultB
    duringStates := [aA.state.reg, aB.state.reg, s3.reg]
    transportCount := s4.transportCount }

/-! ## Registry operation sequences (for the registry invariant) -/

/-- A registry operation of §4.2 applied on a client instance. -/
inductive RegOp where
  | acq (k : String) (strat : DedupeStrategy)
  | rel (k : String) (tok : Nat)
  | set (k : String) (tok : Nat)
  | can (k : String)
  deriving DecidableEq, Repr

/-- Apply one registry operation to the client state. -/
def applyOp (s : ClientState) : RegOp → ClientState
  | .acq k strat => (acquire s k strat).state
  | .rel k tok => release s k tok
  | .set k tok => settleEntry s k tok
  | .can k => cancelKey s k

/-- Apply a sequence of registry operations, in order (the cooperative
scheduler serializes them, §5). -/
def applyOps (s : ClientState) (ops : List RegOp) : ClientState :=
  ops.foldl applyOp s

/-- Well-formedness of a client state: the registry holds at most one
entry per key (its keys are pairwise distinct). -/
def keysNodup (s : ClientState) : Prop :=
  (s.reg.entries.map (fun e => e.key)).Nodup

end CallApi

namespace CallApi

lemma keys_map_update (l : List InFlightEntry) (f : InFlightEntry → InFlightEntry)
    (h : ∀ e, (f e).key = e.key) :
    (l.map f).map (fun e => e.key) = l.map (fun e => e.key) := by
  induction l with
  | nil => rfl
  | cons e l ih => simp [h, ih]

lemma countFor_le_one_of_nodup (l : List InFlightEntry) (k : String)
    (h : (l.map (fun e => e.key)).Nodup) :
    (l.filter (fun e => e.key == k)).length ≤ 1 := by
  induction l with
  | nil => simp
  | cons e l ih =>
    simp only [List.map_cons, List.nodup_cons] at h
    by_cases hk : e.key == k
    · have hkeq : e.key = k := by simpa using hk
      have hnil : l.filter (fun e => e.key == k) = [] := by
        rw [List.filter_eq_nil_iff]
        intro a ha hcon
        have hak : a.key = k := by simpa using hcon
        exact h.1 (hkeq ▸ hak ▸ List.mem_map_of_mem _ ha)
      simp [hk, hnil]
    · simp only [List.filter_cons, hk, if_neg]
      simpa using ih h.2

lemma keysNodup_acquire (s : ClientState) (k : String) (strat : DedupeStrategy)
    (h : keysNodup s) : keysNodup (acquire s k strat).state := by
  cases strat with
  | nodedupe => simpa [acquire, keysNodup] using h
  | cancel =>
    cases hfind : s.reg.findEntry k with
    | none =>
      have hforall := List.find?_eq_none.mp hfind
      simp only [acquire, hfind, keysNodup, List.map_cons, List.nodup_cons]
      refine ⟨?_, h⟩
      intro hmem
      obtain ⟨e, he, hek⟩ := List.mem_map.mp hmem
      have hne := hforall e he
      rw [hek] at hne
      simp at hne
    | some old =>
      simp only [acquire, hfind, keysNodup, Registry.remove, List.map_cons, List.nodup_cons]
      constructor
      · intro hmem
        obtain ⟨e, he, hek⟩ := List.mem_map.mp hmem
        have hnk := (List.mem_filter.mp he).2
        rw [hek] at hnk
        simp at hnk
      · exact ((List.filter_sublist _).map _).nodup h
  | defer =>
    cases hfind : s.reg.findEntry k with
    | none =>
      have hforall := List.find?_eq_none.mp hfind
      simp only [acquire, hfind, keysNodup, List.map_cons, List.nodup_cons]
      refine ⟨?_, h⟩
      intro hmem
      obtain ⟨e, he, hek⟩ := List.mem_map.mp hmem
      have hne := hforall e he
      rw [hek] at hne
      simp at hne
    | some old =>
      have hupd :
          ((s.reg.entries.map fun e =>
              if e.key == k then { e with waiters := e.waiters + 1 } else e).map
            (fun e => e.key))
          = s.reg.entries.map (fun e => e.key) := by
        refine keys_map_update _ _ ?_
        intro e
        by_cases hek : e.key == k <;> simp [hek]
      simp only [acquire, hfind, keysNodup]
      rw [hupd]
      exact h

lemma keysNodup_release (s : ClientState) (k : String) (tok : Nat)
    (h : keysNodup s) : keysNodup (release s k tok) := by
  cases hfind : s.reg.findEntry k with
  | none => simpa [release, hfind] using h
  | some e =>
    by_cases htok : e.id == tok
    · by_cases hrem : e.waiters ≤ 1 && e.settled
      · simp only [release, hfind, htok, hrem, if_true]
        exact ((List.filter_sublist _).map _).nodup h
      · have hupd :
            ((s.reg.entries.map fun e2 =>
                if e2.key == k then { e2 with waiters := e2.waiters - 1 } else e2).map
              (fun e => e.key))
            = s.reg.entries.map (fun e => e.key) := by
          refine keys_map_update _ _ ?_
          intro e2
          by_cases hek : e2.key == k <;> simp [hek]
        have hred : release s k tok =
            { s with reg :=
                { entries :=
                    s.reg.entries.map (fun e2 =>
                      if e2.key == k then { e2 with waiters := e2.waiters - 1 } else e2) } } := by
          simp [release, hfind, htok, hrem]
        rw [hred]
        show ((s.reg.entries.map fun e2 =>
            if e2.key == k then { e2 with waiters := e2.waiters - 1 } else e2).map
          (fun e => e.key)).Nodup
        rw [hupd]
        exact h
    · simpa [release, hfind, htok] using h

lemma keysNodup_settleEntry (s : ClientState) (k : String) (tok : Nat)
    (h : keysNodup s) : keysNodup (settleEntry s k tok) := by
  have hupd :
      ((s.reg.entries.map fun e =>
          if e.key == k && e.id == tok then { e with settled := true } else e).map
        (fun e => e.key))
      = s.reg.entries.map (fun e => e.key) := by
    refine keys_map_update _ _ ?_
    intro e
    by_cases hek : e.key == k && e.id == tok <;> simp [hek]
  simp only [settleEntry, keysNodup]
  rw [hupd]
  exact h

lemma keysNodup_cancelKey (s : ClientState) (k : String)
    (h : keysNodup s) : keysNodup (cancelKey s k) := by
  cases hfind : s.reg.findEntry k with
  | none => simpa [cancelKey, hfind] using h
  | some e => simpa [cancelKey, hfind, keysNodup] using h

lemma keysNodup_applyOps (s : ClientState) (ops : List RegOp)
    (h : keysNodup s) : keysNodup (applyOps s ops) := by
  induction ops generalizing s with
  | nil => simpa [applyOps] using h
  | cons op ops ih =>
    have h1 : keysNodup (applyOp s op) := by
      cases op with
      | acq k strat => exact keysNodup_acquire s k strat h
      | rel k tok => exact keysNodup_release s k tok h
      | set k tok => exact keysNodup_settleEntry s k tok h
      | can k => exact keysNodup_cancelKey s k h
    simpa [applyOps] using ih (applyOp s op) h1

/-- Modelled from the spec: backoff shape of §4.4. -/
inductive BackoffShape where
  | fixed (d : Nat)
  | exponential (base : Nat)
  deriving DecidableEq, Repr

/-- Modelled from the spec: retry limits of §4.4. -/
structure RetryConfig where
  maxAttempts : Nat
  retryOn : ErrClass → Bool
  shape : BackoffShape
  cap : Nat

/-- Raw backoff delay before clamping. -/
def rawDelay (shape : BackoffShape) (i : Nat) : Nat :=
  match shape with
  | .fixed d => d
  | .exponential b => b * 2 ^ i

/-- Delay from shape and attempt index, clamped to the cap (§4.4). -/
def delayFor (cfg : RetryConfig) (i : Nat) : Nat :=
  min (rawDelay cfg.shape i) cfg.cap

/-- Abort never retried; outside the configured set never retried. -/
def isRetryable (cfg : RetryConfig) (c : ErrClass) : Bool :=
  match c with
  | .abort => false
  | _ => cfg.retryOn c

structure RetryDecision where
  retry : Bool
  delay : Nat
  deriving DecidableEq, Repr

/-- Modelled from the spec: decide(attemptState, outcome) of §4.4. -/
def decideRetry (cfg : RetryConfig) (i : Nat) (c : ErrClass) : RetryDecision :=
  if isRetryable cfg c ∧ i + 1 < cfg.maxAttempts then
    { retry := true, delay := delayFor cfg i }
  else
    { retry := false, delay := 0 }

structure LoopOut where
  result : CallResult
  invocations : Nat
  waited : Nat
  deriving DecidableEq, Repr

/-- Modelled from the spec: the attempt loop (fuel = remaining budget). -/
def runAttemptsAux (cfg : RetryConfig) (transport : Nat → Outcome)
    (abortInWait : Nat → Option Nat) : Nat → Nat → Nat → LoopOut
  | i, 0, waited =>
      { result := buildResult (.failure .network none), invocations := i, waited := waited }
  | i, fuel + 1, waited =>
      match transport i with
      | .success v r =>
          { result := buildResult (.success v r), invocations := i + 1, waited := waited }
      | .failure c r =>
          let d := decideRetry cfg i c
          if d.retry then
            match abortInWait i with
            | some t =>
                if t < d.delay then
                  { result := buildResult (.failure .abort none)
                    invocations := i + 1, waited := waited + t }
                else
                  runAttemptsAux cfg transport abortInWait (i + 1) fuel (waited + d.delay)
            | none => runAttemptsAux cfg transport abortInWait (i + 1) fuel (waited + d.delay)
          else
            { result := buildResult (.failure c r), invocations := i + 1, waited := waited }

/-- Modelled from the spec: run the attempt loop from attempt 0. -/
def runAttempts (cfg : RetryConfig) (transport : Nat → Outcome)
    (abortInWait : Nat → Option Nat) : LoopOut :=
  runAttemptsAux cfg transport abortInWait 0 cfg.maxAttempts 0

lemma runAttemptsAux_succeeds (cfg : RetryConfig) (transport : Nat → Outcome)
    (m : Nat) :
    ∀ i fuel waited, 1 ≤ m → m ≤ fuel → i + m ≤ cfg.maxAttempts →
    (∀ j, i ≤ j → j + 1 < i + m →
      ∃ c r, transport j = .failure c r ∧ isRetryable cfg c = true) →
    (∃ v r, transport (i + m - 1) = .success v r) →
    (runAttemptsAux cfg transport (fun _ => none) i fuel waited).result
        = buildResult (transport (i + m - 1))
    ∧ (runAttemptsAux cfg transport (fun _ => none) i fuel waited).invocations = i + m := by
  induction m with
  | zero => intro i fuel waited h1; omega
  | succ m ih =>
    intro i fuel waited h1 h2 h3 hfail hsucc
    obtain ⟨fuel, rfl⟩ : ∃ f, fuel = f + 1 := ⟨fuel - 1, by omega⟩
    by_cases hm : m = 0
    · subst hm
      obtain ⟨v, r, hvr⟩ := hsucc
      have hi : i + 1 - 1 = i := by omega
      rw [hi] at hvr
      simp [runAttemptsAux, hvr]
    · have hm1 : 1 ≤ m := by omega
      obtain ⟨c, r, hcr, hret⟩ := hfail i (le_refl i) (by omega)
      have hdec : (decideRetry cfg i c).retry = true := by
        rw [decideRetry, if_pos ⟨hret, by omega⟩]
      have hstep :
          runAttemptsAux cfg transport (fun _ => none) i (fuel + 1) waited
            = runAttemptsAux cfg transport (fun _ => none) (i + 1) fuel
                (waited + (decideRetry cfg i c).delay) := by
        simp [runAttemptsAux, hcr, hdec]
      rw [hstep]
      have hre := ih (i + 1) fuel (waited + (decideRetry cfg i c).delay)
        hm1 (by omega) (by omega)
        (fun j hj1 hj2 => hfail j (by omega) (by omega))
        (by
          have : i + 1 + m - 1 = i + (m + 1) - 1 := by omega
          rw [this]
          exact hsucc)
      have harith : i + 1 + m - 1 = i + (m + 1) - 1 := by omega
      have harith2 : i + 1 + m = i + (m + 1) := by omega
      rw [harith, harith2] at hre
      exact hre

/-- Modelled from the spec: the immutable Request Descriptor of §3 —
target, method, headers, body, and the resolved option set (the
key-generation code is not in the source tree). -/
structure RequestDescriptor where
  method : String
  target : String
  headers : List (String × String)
  body : Option String
  options : List (String × String)
  deriving DecidableEq, Repr

/-- Field ordering used by the stable serialization: lexicographic on
(name, value). -/
def pairLE (p q : String × String) : Bool :=
  decide (toLex p ≤ toLex q)

/-- Modelled from the spec: stable serialization of a field list (§4.1) —
fields are put in a canonical order, so incidental insertion order does
not affect the output. -/
def stableSerialize (l : List (String × String)) : String :=
  (l.mergeSort pairLE).foldl (fun acc p => acc ++ "|" ++ p.1 ++ ":" ++ p.2) ""

/-- Modelled from the spec: `computeKey(descriptor)` of §4.1 —
deterministic pure function of the normalized inputs (method + target +
stable-serialized headers, body and relevant options), unless the caller
supplies an explicit override key, which is used verbatim and bypasses
normalization entirely. -/
def computeKey (overrideKey : Option String) (d : RequestDescriptor) : String :=
  match overrideKey with
  | some k => k
  | none =>
      d.method ++ " " ++ d.target
        ++ "#" ++ (match d.body with | some b => b | none => "")
        ++ stableSerialize d.headers
        ++ stableSerialize d.options

instance pairLEAntisymm : IsAntisymm (String × String) (fun a b => pairLE a b = true) where
  antisymm _ _ h1 h2 :=
    toLex.injective (le_antisymm (of_decide_eq_true h1) (of_decide_eq_true h2))

lemma mergeSort_pairLE_eq_of_perm (l₁ l₂ : List (String × String)) (h : l₁.Perm l₂) :
    l₁.mergeSort pairLE = l₂.mergeSort pairLE := by
  have htrans : ∀ a b c : String × String,
      pairLE a b = true → pairLE b c = true → pairLE a c = true := by
    intro a b c h1 h2
    exact decide_eq_true (le_trans (of_decide_eq_true h1) (of_decide_eq_true h2))
  have htotal : ∀ a b : String × String, (pairLE a b || pairLE b a) = true := by
    intro a b
    rcases le_total (toLex a) (toLex b) with hle | hle <;> simp [pairLE, hle]
  refine List.eq_of_perm_of_sorted (r := fun a b => pairLE a b = true) ?_ ?_ ?_
  · exact (List.mergeSort_perm l₁ pairLE).trans (h.trans (List.mergeSort_perm l₂ pairLE).symm)
  · exact List.sorted_mergeSort htrans htotal l₁
  · exact List.sorted_mergeSort htrans htotal l₂

/-- An observable step of the settlement tail of the lifecycle. -/
inductive SettleEvent where
  | registryRelease
  | finallyStage
  | returned (r : CallResult)
  | raised (e : CallError)
  deriving DecidableEq, Repr

/-- Modelled from the spec: the settlement tail of the state machine
(§4.6, §7) — registry release, then the `finally` hook stage, then
delivery: the uniform Result is returned, unless throw-on-error is
configured and the Result carries an error, in which case the same
normalized error is raised to the caller after that bookkeeping
completes. -/
def settleSequence (throwOnError : Bool) (r : CallResult) : List SettleEvent :=
  [SettleEvent.registryRelease, SettleEvent.finallyStage] ++
    (match throwOnError, r.error with
     | true, some e => [SettleEvent.raised e]
     | _, _ => [SettleEvent.returned r])

/-- Concrete retry configuration of the §8 scenario: max attempts 3,
retryable on HTTP 500, exponential backoff. -/
def demoCfg : RetryConfig :=
  { maxAttempts := 3
    retryOn := fun c => match c with | .http 500 => true | _ => false
    shape := .exponential 1
    cap := 100 }

/-- Concrete transport of the §8 scenario: 500, 500, then 200. -/
def demoTransport : Nat → Outcome :=
  fun i => if i ≤ 1 then .failure (.http 500) (some 500) else .success 7 200

end CallApi

namespace CallApi

/-- C6: Result shape exclusivity — every Result built from a terminal
outcome is exactly one of the two shapes: data present with error null,
or data null with error present; hence data is null iff error is
non-null.  (Immutability holds inherently: `CallResult` is a pure value
and no operation of the model mutates one.) -/
theorem result_shape_exclusive (o : Outcome) :
    ((∃ v, (buildResult o).data = some v) ∧ (buildResult o).error = none
      ∨ (buildResult o).data = none ∧ ∃ e, (buildResult o).error = some e)
    ∧ ((buildResult o).data = none ↔ (buildResult o).error ≠ none) := by
  cases o <;> simp [buildResult]

/-- C9 counterexample: the claim that every delivered error's `name` is
drawn from the seven-member taxonomy fails on the code as documented — a
JavaScript `TypeError` is normalized with `name = "TypeError"`, which is
not in the taxonomy. -/
theorem error_name_outside_taxonomy :
    (normalizeError (.jsError "TypeError" "Failed to fetch")).name = "TypeError"
    ∧ "TypeError" ∉ taxonomyNames := by
  constructor
  · rfl
  · decide

/-- C9 (amended): every delivered error object's `name` is `"HTTPError"`
when the failure is an HTTP error, and the underlying JavaScript error's
own name otherwise — the union is discriminable by the `name` tag. -/
theorem error_name_discriminates (f : RawFailure) :
    (∀ status m, (normalizeError (.httpError status m)).name = "HTTPError")
    ∧ (∀ n m, (normalizeError (.jsError n m)).name = n)
    ∧ ((normalizeError f).name = "HTTPError"
        ∨ ∃ n m, f = .jsError n m ∧ (normalizeError f).name = n) := by
  refine ⟨fun _ _ => rfl, fun _ _ => rfl, ?_⟩
  cases f with
  | httpError s m => exact Or.inl rfl
  | jsError n m => exact Or.inr ⟨n, m, rfl, rfl⟩

/-- C1: cancel strategy — calls A then B on the same key, B issued before
A settles: A resolves to an AbortError result (data null, never a partial
success, whatever A's transport would have produced), B resolves normally
to the Result of its own transport outcome, and at every instant while a
call is in flight the registry holds exactly one entry for the key. -/
theorem cancel_strategy_supersedes (k : String) (oA oB : Outcome) :
    let L := runTwoCalls .cancel k oA oB
    (L.resultA.data = none
      ∧ L.resultA.error = some { name := "AbortError", message := "AbortError" })
    ∧ L.resultB = buildResult oB
    ∧ (L.duringStates.all (fun r => r.countFor k == 1)) = true := by
  simp [runTwoCalls, acquire, release, settleEntry, beginTransport, ClientState.init,
    Registry.findEntry, Registry.remove, Registry.countFor, buildResult, errorName]

/-- C2: defer strategy — calls A then B on the same key, B issued before
A settles: both calls resolve to the identical Result value and the
transport primitive is invoked exactly once. -/
theorem defer_strategy_shares (k : String) (oA oB : Outcome) :
    let L := runTwoCalls .defer k oA oB
    L.resultA = L.resultB ∧ L.transportCount = 1 := by
  simp [runTwoCalls, acquire, release, settleEntry, beginTransport, ClientState.init,
    Registry.findEntry, Registry.remove, Registry.countFor, buildResult]

/-- C4 counterexample: the claim's no-two-isNew conjunct fails on the
cancel strategy — a second acquire for the same key, issued while the
first call's entry is still in the registry, also observes
`isNew = true` (§4.2 itself assigns `isNew = true` to a superseding
cancel-acquire). -/
theorem both_acquires_observe_new :
    (acquire ClientState.init "k" .cancel).isNew = true
    ∧ ((acquire ClientState.init "k" .cancel).state.reg.findEntry "k").isSome = true
    ∧ (acquire (acquire ClientState.init "k" .cancel).state "k" .cancel).isNew = true := by
  refine ⟨rfl, by decide, by decide⟩

/-- C4 (amended): at most one In-Flight Entry exists per key per client
instance at any instant (every state reachable from a fresh client by
serialized registry operations holds at most one entry per key); and a
later acquire that finds the key's entry present observes
`isNew = false` under the defer strategy, while under the cancel
strategy its `isNew = true` reflects supersession — it fires the
existing entry's abort handle and delivers the abort to that entry's
waiters. -/
theorem inflight_registry_atomic :
    (∀ ops k, (applyOps ClientState.init ops).reg.countFor k ≤ 1)
    ∧ (∀ s k, (s.reg.findEntry k).isSome → (acquire s k .defer).isNew = false)
    ∧ (∀ s k e, s.reg.findEntry k = some e →
        (acquire s k .cancel).isNew = true
        ∧ (acquire s k .cancel).abortedPrev = [e.id]
        ∧ e.id ∈ (acquire s k .cancel).state.abortedIds) := by
  refine ⟨?_, ?_, ?_⟩
  · intro ops k
    have h := keysNodup_applyOps ClientState.init ops (by simp [keysNodup, ClientState.init])
    simpa [Registry.countFor] using countFor_le_one_of_nodup _ k h
  · intro s k h
    obtain ⟨e, he⟩ := Option.isSome_iff_exists.mp h
    simp [acquire, he]
  · intro s k e he
    refine ⟨by simp [acquire, he], by simp [acquire, he], by simp [acquire, he]⟩

/-- Concrete check of the amended registry invariant: a cancel-acquire
followed by a defer-acquire on one key, evaluated on a fresh client. -/
theorem inflight_registry_atomic_witness :
    (applyOps ClientState.init [.acq "k" .cancel, .acq "k" .defer]).reg.countFor "k" ≤ 1
    ∧ (acquire (acquire ClientState.init "k" .defer).state "k" .defer).isNew = false
    ∧ (acquire (acquire ClientState.init "k" .cancel).state "k" .cancel).abortedPrev = [0] := by
  refine ⟨inflight_registry_atomic.1 _ _, inflight_registry_atomic.2.1 _ _ (by decide), ?_⟩
  exact (inflight_registry_atomic.2.2 (acquire ClientState.init "k" .cancel).state "k"
      { key := "k", id := 0, waiters := 1, strategy := .cancel, settled := false }
      (by decide)).2.1

/-- C10: authorization header generation — a bare string `s` and the
object form `bearer s` both yield `Authorization: Bearer s`; the object
form `token s` yields `Authorization: Token s`. -/
theorem auth_header_generation (s : String) :
    authHeader (.str s) = ("Authorization", "Bearer " ++ s)
    ∧ authHeader (.bearer s) = ("Authorization", "Bearer " ++ s)
    ∧ authHeader (.token s) = ("Authorization", "Token " ++ s) :=
  ⟨rfl, rfl, rfl⟩

/-- C3: retry policy — when the transport fails the first N-1 attempts
with a retryable classification and succeeds on attempt N, with N within
the configured max attempts, the call resolves to the success Result of
attempt N after exactly N transport invocations; and under exponential
backoff the computed delays are non-decreasing in the attempt index and
every computed delay is clamped to the configured cap. -/
theorem retry_resolves_after_n (cfg : RetryConfig) (transport : Nat → Outcome) (N : Nat)
    (h1 : 1 ≤ N) (h2 : N ≤ cfg.maxAttempts)
    (hfail : ∀ i, i + 1 < N → ∃ c r, transport i = .failure c r ∧ isRetryable cfg c = true)
    (hsucc : ∃ v r, transport (N - 1) = .success v r) :
    ((runAttempts cfg transport (fun _ => none)).result = buildResult (transport (N - 1))
      ∧ (runAttempts cfg transport (fun _ => none)).invocations = N)
    ∧ (∀ cfg2 b i j, cfg2.shape = .exponential b → i ≤ j → delayFor cfg2 i ≤ delayFor cfg2 j)
    ∧ (∀ cfg2 i, delayFor cfg2 i ≤ cfg2.cap) := by
  refine ⟨?_, ?_, ?_⟩
  · have h := runAttemptsAux_succeeds cfg transport N 0 cfg.maxAttempts 0 h1 h2 (by omega)
      (fun j hj1 hj2 => hfail j (by omega)) (by simpa using hsucc)
    simpa [runAttempts] using h
  · intro cfg2 b i j hshape hij
    simp only [delayFor, hshape, rawDelay]
    refine min_le_min ?_ (le_refl _)
    exact Nat.mul_le_mul_left b (Nat.pow_le_pow_right (by norm_num) hij)
  · intro cfg2 i
    exact min_le_right _ _

theorem retry_resolves_after_n_witness :
    (runAttempts demoCfg demoTransport (fun _ => none)).result = buildResult (demoTransport 2)
    ∧ (runAttempts demoCfg demoTransport (fun _ => none)).invocations = 3 :=
  (retry_resolves_after_n demoCfg demoTransport 3 (by omega) (by decide)
    (fun i hi =>
      ⟨.http 500, some 500, by
        have hle : i ≤ 1 := by omega
        simp [demoTransport, hle], by decide⟩)
    ⟨7, 200, by decide⟩).1

/-- C5: abort terminality — the retry decision never retries an abort
outcome; an abort classification settles the call terminally after one
invocation; and an abort arriving at time t into a retry wait settles
the call as AbortError immediately — the total waited time is t, not
the full computed delay, and no further transport attempt is issued. -/
theorem abort_is_terminal (cfg : RetryConfig) (transport : Nat → Outcome)
    (c : ErrClass) (r : Option Nat) (t : Nat)
    (hfail : transport 0 = .failure c r)
    (hretry : isRetryable cfg c = true)
    (hmax : 2 ≤ cfg.maxAttempts)
    (ht : t < delayFor cfg 0) :
    (∀ cfg2 i, (decideRetry cfg2 i .abort).retry = false)
    ∧ (∀ tr2 r2, tr2 0 = Outcome.failure .abort r2 →
        (runAttempts cfg tr2 (fun _ => none)).result = buildResult (.failure .abort r2)
        ∧ (runAttempts cfg tr2 (fun _ => none)).invocations = 1)
    ∧ ((runAttempts cfg transport (fun i => if i = 0 then some t else none)).result
          = buildResult (.failure .abort none)
        ∧ (runAttempts cfg transport (fun i => if i = 0 then some t else none)).invocations = 1
        ∧ (runAttempts cfg transport (fun i => if i = 0 then some t else none)).waited = t) := by
  obtain ⟨f, hf⟩ : ∃ f, cfg.maxAttempts = f + 1 := ⟨cfg.maxAttempts - 1, by omega⟩
  refine ⟨?_, ?_, ?_⟩
  · intro cfg2 i
    simp [decideRetry, isRetryable]
  · intro tr2 r2 h0
    constructor <;> simp [runAttempts, hf, runAttemptsAux, h0, decideRetry, isRetryable]
  · have hdec : decideRetry cfg 0 c = { retry := true, delay := delayFor cfg 0 } := by
      rw [decideRetry, if_pos ⟨hretry, by omega⟩]
    refine ⟨?_, ?_, ?_⟩ <;>
      simp [runAttempts, hf, runAttemptsAux, hfail, hdec, ht]

/-- C8: deduplication key determinism — computeKey is a deterministic
pure function of the descriptor (computing it twice yields the same
value); an explicit override key is used verbatim, bypassing
normalization; and two descriptors differing only in incidental field
ordering (a permutation of headers and options) yield equal keys.
Totality of computeKey (it cannot fail the call) is given by its
type. -/
theorem compute_key_deterministic (ov : Option String) (d d2 : RequestDescriptor)
    (hm : d2.method = d.method) (ht : d2.target = d.target) (hb : d2.body = d.body)
    (hh : d2.headers.Perm d.headers) (ho : d2.options.Perm d.options) :
    computeKey ov d = computeKey ov d
    ∧ (∀ k d3, computeKey (some k) d3 = k)
    ∧ computeKey none d2 = computeKey none d := by
  refine ⟨rfl, fun k d3 => rfl, ?_⟩
  simp only [computeKey, stableSerialize, hm, ht, hb,
    mergeSort_pairLE_eq_of_perm _ _ hh, mergeSort_pairLE_eq_of_perm _ _ ho]

theorem compute_key_deterministic_witness :
    computeKey none
      { method := "GET", target := "/users"
        headers := [("b", "2"), ("a", "1")], body := none, options := [] }
    = computeKey none
      { method := "GET", target := "/users"
        headers := [("a", "1"), ("b", "2")], body := none, options := [] } :=
  (compute_key_deterministic none
    { method := "GET", target := "/users"
      headers := [("a", "1"), ("b", "2")], body := none, options := [] }
    { method := "GET", target := "/users"
      headers := [("b", "2"), ("a", "1")], body := none, options := [] }
    rfl rfl rfl (by decide) (by decide)).2.2

/-- C7: throw-on-error semantics — with throw-on-error not configured
(the default) settlement returns the Result (every terminal error is
delivered in its error slot, never raised and never dropped); with
throw-on-error configured and the Result carrying an error, the same
normalized error (identical name classification) is raised, and only
after registry release and the finally hook stage. -/
theorem throw_on_error_semantics (r : CallResult) :
    (settleSequence false r
        = [SettleEvent.registryRelease, SettleEvent.finallyStage, SettleEvent.returned r])
    ∧ (∀ e, r.error = some e →
        settleSequence true r
          = [SettleEvent.registryRelease, SettleEvent.finallyStage, SettleEvent.raised e])
    ∧ (∀ c resp, (buildResult (.failure c resp)).error
        = some { name := errorName c, message := errorName c }) := by
  refine ⟨?_, ?_, fun c resp => rfl⟩
  · cases hr : r.error <;> simp [settleSequence, hr]
  · intro e he
    simp [settleSequence, he]

theorem throw_on_error_semantics_witness :
    settleSequence false { data := none, error := some { name := "HTTPError", message := "m" }, response := some 404 }
      = [SettleEvent.registryRelease, SettleEvent.finallyStage,
         SettleEvent.returned { data := none, error := some { name := "HTTPError", message := "m" }, response := some 404 }]
    ∧ settleSequence true { data := none, error := some { name := "HTTPError", message := "m" }, response := some 404 }
      = [SettleEvent.registryRelease, SettleEvent.finallyStage,
         SettleEvent.raised { name := "HTTPError", message := "m" }] :=
  ⟨(throw_on_error_semantics _).1, (throw_on_error_semantics _).2.1 _ rfl⟩

theorem abort_is_terminal_witness :
    (runAttempts demoCfg demoTransport (fun i => if i = 0 then some 0 else none)).result
      = buildResult (.failure .abort none)
    ∧ (runAttempts demoCfg demoTransport (fun i => if i = 0 then some 0 else none)).invocations = 1
    ∧ (runAttempts demoCfg demoTransport (fun i => if i = 0 then some 0 else none)).waited = 0 :=
  (abort_is_terminal demoCfg demoTransport (.http 500) (some 500) 0 (by decide) (by decide)
    (by decide) (by decide)).2.2

end CallApi
